import Mathlib

/-!
Verification of the womter pattern-matching and normalization engine.

The definitions below are a shallow embedding of the Python code in
`src/analyzer/src/analyzer.py` (class `Analyzer`) and
`src/merger/src/reader.py` (method `DataReader.remove_duplicates`).
Python strings are modelled as `List Char`; Unicode NFD decomposition and
the combining-mark test are modelled by a finite table covering the
Latin-1 letter range (the repertoire the code documents itself for:
"Greco-Roman languages (Spanish, English, French, German, etc.)");
Python `str.lower` is likewise modelled on the ASCII and Latin-1 range.
Floating point cell values are modelled as rationals.
-/

namespace Womter

/-! ### Character-level model of the Python text primitives -/

/-- Whitespace as recognized by Python `str.strip()` and the regex class
backslash-s, restricted to the ASCII range. -/
def pySpace (c : Char) : Bool :=
  c = ' ' || c = '\t' || c = '\n' || c = '\r' || c = '\x0b' || c = '\x0c'

/-- Canonical (NFD) decompositions of the Latin-1 accented letters: the
model of `unicodedata.normalize('NFD', _)` on the character repertoire
covered by this development. -/
def decompTable : List (Char × List Char) :=
  [(Char.ofNat 0x00C0, [Char.ofNat 0x0041, Char.ofNat 0x0300]),
    (Char.ofNat 0x00C1, [Char.ofNat 0x0041, Char.ofNat 0x0301]),
    (Char.ofNat 0x00C2, [Char.ofNat 0x0041, Char.ofNat 0x0302]),
    (Char.ofNat 0x00C3, [Char.ofNat 0x0041, Char.ofNat 0x0303]),
    (Char.ofNat 0x00C4, [Char.ofNat 0x0041, Char.ofNat 0x0308]),
    (Char.ofNat 0x00C5, [Char.ofNat 0x0041, Char.ofNat 0x030A]),
    (Char.ofNat 0x00C7, [Char.ofNat 0x0043, Char.ofNat 0x0327]),
    (Char.ofNat 0x00C8, [Char.ofNat 0x0045, Char.ofNat 0x0300]),
    (Char.ofNat 0x00C9, [Char.ofNat 0x0045, Char.ofNat 0x0301]),
    (Char.ofNat 0x00CA, [Char.ofNat 0x0045, Char.ofNat 0x0302]),
    (Char.ofNat 0x00CB, [Char.ofNat 0x0045, Char.ofNat 0x0308]),
    (Char.ofNat 0x00CC, [Char.ofNat 0x0049, Char.ofNat 0x0300]),
    (Char.ofNat 0x00CD, [Char.ofNat 0x0049, Char.ofNat 0x0301]),
    (Char.ofNat 0x00CE, [Char.ofNat 0x0049, Char.ofNat 0x0302]),
    (Char.ofNat 0x00CF, [Char.ofNat 0x0049, Char.ofNat 0x0308]),
    (Char.ofNat 0x00D1, [Char.ofNat 0x004E, Char.ofNat 0x0303]),
    (Char.ofNat 0x00D2, [Char.ofNat 0x004F, Char.ofNat 0x0300]),
    (Char.ofNat 0x00D3, [Char.ofNat 0x004F, Char.ofNat 0x0301]),
    (Char.ofNat 0x00D4, [Char.ofNat 0x004F, Char.ofNat 0x0302]),
    (Char.ofNat 0x00D5, [Char.ofNat 0x004F, Char.ofNat 0x0303]),
    (Char.ofNat 0x00D6, [Char.ofNat 0x004F, Char.ofNat 0x0308]),
    (Char.ofNat 0x00D9, [Char.ofNat 0x0055, Char.ofNat 0x0300]),
    (Char.ofNat 0x00DA, [Char.ofNat 0x0055, Char.ofNat 0x0301]),
    (Char.ofNat 0x00DB, [Char.ofNat 0x0055, Char.ofNat 0x0302]),
    (Char.ofNat 0x00DC, [Char.ofNat 0x0055, Char.ofNat 0x0308]),
    (Char.ofNat 0x00DD, [Char.ofNat 0x0059, Char.ofNat 0x0301]),
    (Char.ofNat 0x00E0, [Char.ofNat 0x0061, Char.ofNat 0x0300]),
    (Char.ofNat 0x00E1, [Char.ofNat 0x0061, Char.ofNat 0x0301]),
    (Char.ofNat 0x00E2, [Char.ofNat 0x0061, Char.ofNat 0x0302]),
    (Char.ofNat 0x00E3, [Char.ofNat 0x0061, Char.ofNat 0x0303]),
    (Char.ofNat 0x00E4, [Char.ofNat 0x0061, Char.ofNat 0x0308]),
    (Char.ofNat 0x00E5, [Char.ofNat 0x0061, Char.ofNat 0x030A]),
    (Char.ofNat 0x00E7, [Char.ofNat 0x0063, Char.ofNat 0x0327]),
    (Char.ofNat 0x00E8, [Char.ofNat 0x0065, Char.ofNat 0x0300]),
    (Char.ofNat 0x00E9, [Char.ofNat 0x0065, Char.ofNat 0x0301]),
    (Char.ofNat 0x00EA, [Char.ofNat 0x0065, Char.ofNat 0x0302]),
    (Char.ofNat 0x00EB, [Char.ofNat 0x0065, Char.ofNat 0x0308]),
    (Char.ofNat 0x00EC, [Char.ofNat 0x0069, Char.ofNat 0x0300]),
    (Char.ofNat 0x00ED, [Char.ofNat 0x0069, Char.ofNat 0x0301]),
    (Char.ofNat 0x00EE, [Char.ofNat 0x0069, Char.ofNat 0x0302]),
    (Char.ofNat 0x00EF, [Char.ofNat 0x0069, Char.ofNat 0x0308]),
    (Char.ofNat 0x00F1, [Char.ofNat 0x006E, Char.ofNat 0x0303]),
    (Char.ofNat 0x00F2, [Char.ofNat 0x006F, Char.ofNat 0x0300]),
    (Char.ofNat 0x00F3, [Char.ofNat 0x006F, Char.ofNat 0x0301]),
    (Char.ofNat 0x00F4, [Char.ofNat 0x006F, Char.ofNat 0x0302]),
    (Char.ofNat 0x00F5, [Char.ofNat 0x006F, Char.ofNat 0x0303]),
    (Char.ofNat 0x00F6, [Char.ofNat 0x006F, Char.ofNat 0x0308]),
    (Char.ofNat 0x00F9, [Char.ofNat 0x0075, Char.ofNat 0x0300]),
    (Char.ofNat 0x00FA, [Char.ofNat 0x0075, Char.ofNat 0x0301]),
    (Char.ofNat 0x00FB, [Char.ofNat 0x0075, Char.ofNat 0x0302]),
    (Char.ofNat 0x00FC, [Char.ofNat 0x0075, Char.ofNat 0x0308]),
    (Char.ofNat 0x00FD, [Char.ofNat 0x0079, Char.ofNat 0x0301]),
    (Char.ofNat 0x00FF, [Char.ofNat 0x0079, Char.ofNat 0x0308])]

/-- `unicodedata.combining(c) != 0`, modelled as membership in the
Combining Diacritical Marks block U+0300 to U+036F. -/
def isCombining (c : Char) : Bool :=
  0x300 ≤ c.toNat && c.toNat ≤ 0x36F

/-- The fixed punctuation set stripped by the regex
`[.,!?;:()\[\]\x7b\x7d"'-]` in `_normalize_text_for_comparison` and
`_clean_pattern_text` (the last two bracket entries are the braces, the
double quote U+0022 and the apostrophe U+0027). -/
def punctChars : List Char :=
  ['.', ',', '!', '?', ';', ':', '(', ')', '[', ']',
   Char.ofNat 0x7B, Char.ofNat 0x7D, Char.ofNat 0x22, Char.ofNat 0x27, '-']

/-- Test for membership in the stripped punctuation set. -/
def isPunct (c : Char) : Bool := punctChars.contains c

/-- Model of Python `str.lower` per character, on the ASCII and Latin-1
letter range. Characters outside the table are unchanged. -/
def lowerTable : List (Char × Char) :=
  [(Char.ofNat 0x0041, Char.ofNat 0x0061),
    (Char.ofNat 0x0042, Char.ofNat 0x0062),
    (Char.ofNat 0x0043, Char.ofNat 0x0063),
    (Char.ofNat 0x0044, Char.ofNat 0x0064),
    (Char.ofNat 0x0045, Char.ofNat 0x0065),
    (Char.ofNat 0x0046, Char.ofNat 0x0066),
    (Char.ofNat 0x0047, Char.ofNat 0x0067),
    (Char.ofNat 0x0048, Char.ofNat 0x0068),
    (Char.ofNat 0x0049, Char.ofNat 0x0069),
    (Char.ofNat 0x004A, Char.ofNat 0x006A),
    (Char.ofNat 0x004B, Char.ofNat 0x006B),
    (Char.ofNat 0x004C, Char.ofNat 0x006C),
    (Char.ofNat 0x004D, Char.ofNat 0x006D),
    (Char.ofNat 0x004E, Char.ofNat 0x006E),
    (Char.ofNat 0x004F, Char.ofNat 0x006F),
    (Char.ofNat 0x0050, Char.ofNat 0x0070),
    (Char.ofNat 0x0051, Char.ofNat 0x0071),
    (Char.ofNat 0x0052, Char.ofNat 0x0072),
    (Char.ofNat 0x0053, Char.ofNat 0x0073),
    (Char.ofNat 0x0054, Char.ofNat 0x0074),
    (Char.ofNat 0x0055, Char.ofNat 0x0075),
    (Char.ofNat 0x0056, Char.ofNat 0x0076),
    (Char.ofNat 0x0057, Char.ofNat 0x0077),
    (Char.ofNat 0x0058, Char.ofNat 0x0078),
    (Char.ofNat 0x0059, Char.ofNat 0x0079),
    (Char.ofNat 0x005A, Char.ofNat 0x007A),
    (Char.ofNat 0x00C0, Char.ofNat 0x00E0),
    (Char.ofNat 0x00C1, Char.ofNat 0x00E1),
    (Char.ofNat 0x00C2, Char.ofNat 0x00E2),
    (Char.ofNat 0x00C3, Char.ofNat 0x00E3),
    (Char.ofNat 0x00C4, Char.ofNat 0x00E4),
    (Char.ofNat 0x00C5, Char.ofNat 0x00E5),
    (Char.ofNat 0x00C6, Char.ofNat 0x00E6),
    (Char.ofNat 0x00C7, Char.ofNat 0x00E7),
    (Char.ofNat 0x00C8, Char.ofNat 0x00E8),
    (Char.ofNat 0x00C9, Char.ofNat 0x00E9),
    (Char.ofNat 0x00CA, Char.ofNat 0x00EA),
    (Char.ofNat 0x00CB, Char.ofNat 0x00EB),
    (Char.ofNat 0x00CC, Char.ofNat 0x00EC),
    (Char.ofNat 0x00CD, Char.ofNat 0x00ED),
    (Char.ofNat 0x00CE, Char.ofNat 0x00EE),
    (Char.ofNat 0x00CF, Char.ofNat 0x00EF),
    (Char.ofNat 0x00D0, Char.ofNat 0x00F0),
    (Char.ofNat 0x00D1, Char.ofNat 0x00F1),
    (Char.ofNat 0x00D2, Char.ofNat 0x00F2),
    (Char.ofNat 0x00D3, Char.ofNat 0x00F3),
    (Char.ofNat 0x00D4, Char.ofNat 0x00F4),
    (Char.ofNat 0x00D5, Char.ofNat 0x00F5),
    (Char.ofNat 0x00D6, Char.ofNat 0x00F6),
    (Char.ofNat 0x00D8, Char.ofNat 0x00F8),
    (Char.ofNat 0x00D9, Char.ofNat 0x00F9),
    (Char.ofNat 0x00DA, Char.ofNat 0x00FA),
    (Char.ofNat 0x00DB, Char.ofNat 0x00FB),
    (Char.ofNat 0x00DC, Char.ofNat 0x00FC),
    (Char.ofNat 0x00DD, Char.ofNat 0x00FD),
    (Char.ofNat 0x00DE, Char.ofNat 0x00FE)]

/-- `str.lower` on one character. -/
def pyLowerChar (c : Char) : Char := (lowerTable.lookup c).getD c

/-- `str.lower` on a whole string. -/
def pyLower (s : List Char) : List Char := s.map pyLowerChar

/-- NFD decomposition of one character (identity off the table). -/
def decompose (c : Char) : List Char := (decompTable.lookup c).getD [c]

/-- `unicodedata.normalize('NFD', s)`. -/
def nfd (s : List Char) : List Char := s.flatMap decompose

/-- Drop every combining mark, as in the generator expression
`ch for ch in normalized if not unicodedata.combining(ch)`. -/
def removeCombining (s : List Char) : List Char := s.filter (fun c => !isCombining c)

/-- Drop the fixed punctuation set, as in the `re.sub` call. -/
def removePunct (s : List Char) : List Char := s.filter (fun c => !isPunct c)

/-- Python `str.strip()`: drop leading and trailing whitespace. -/
def pyStrip (s : List Char) : List Char :=
  ((s.dropWhile pySpace).reverse.dropWhile pySpace).reverse

/-- `Analyzer._normalize_text_for_comparison` (analyzer.py lines 55 to 93):
empty guard, strip, NFD decomposition, combining-mark removal, punctuation
removal, lowercasing, in that order. -/
def normalizeForComparison (text : List Char) : List Char :=
  if text = [] then []
  else pyLower (removePunct (removeCombining (nfd (pyStrip text))))

/-- `Analyzer._clean_pattern_text` (analyzer.py lines 95 to 119): empty
guard, strip, punctuation removal; no decomposition, no lowering. -/
def cleanPatternText (text : List Char) : List Char :=
  if text = [] then [] else removePunct (pyStrip text)

/-- Helper for the regex substitution `re.sub(r'\s+', ' ', s)`: collapse
every maximal whitespace run into a single space. The Boolean argument
records whether the previous character was whitespace. -/
def collapseWsAux : Bool → List Char → List Char
  | _, [] => []
  | prev, c :: rest =>
    if pySpace c then
      if prev then collapseWsAux true rest
      else ' ' :: collapseWsAux true rest
    else c :: collapseWsAux false rest

/-- `re.sub(r'\s+', ' ', s)`. -/
def collapseWs (s : List Char) : List Char := collapseWsAux false s

/-- The fixed synonym table `column_mappings` of
`Analyzer._normalize_column_name` (analyzer.py lines 145 to 158). -/
def columnMappings : List (List Char × List Char) :=
  [("tweet id".toList, "tweet_id".toList),
   ("tweet_id".toList, "tweet_id".toList),
   ("usuario nombre".toList, "usuario_nombre".toList),
   ("usuario genero".toList, "usuario_genero".toList),
   ("tipo de verificacion".toList, "tipo_de_verificacion".toList),
   ("public metrics dump".toList, "public_metrics_dump".toList),
   ("user dump".toList, "user_dump".toList),
   ("tweet dump".toList, "tweet_dump".toList),
   ("source file".toList, "_source_file".toList),
   ("source path".toList, "_source_path".toList),
   ("sheet name".toList, "_sheet_name".toList),
   ("language".toList, "_language".toList)]

/-- `Analyzer._normalize_column_name` (analyzer.py lines 121 to 166):
empty guard, lowercase, collapse whitespace runs, strip, then the synonym
table applied on exact post-normalization equality (first match wins). -/
def normalizeColumnName (columnName : List Char) : List Char :=
  if columnName = [] then []
  else
    let normalized := pyStrip (collapseWs (pyLower columnName))
    (columnMappings.lookup normalized).getD normalized

/-- Python `text.split()`: split on whitespace runs, no empty tokens.
The accumulator holds the current token reversed. -/
def pySplitAux : List Char → List Char → List (List Char)
  | cur, [] => if cur = [] then [] else [cur.reverse]
  | cur, c :: rest =>
    if pySpace c then
      if cur = [] then pySplitAux [] rest
      else cur.reverse :: pySplitAux [] rest
    else pySplitAux (c :: cur) rest

/-- Python `text.split()`. -/
def pySplit (s : List Char) : List (List Char) := pySplitAux [] s

/-! ### Data model: cells, rows, raw rule values -/

/-- Column names are Python strings. -/
abbrev ColName := List Char

/-- A scalar cell of a data row: the missing marker (None or NaN, the
values `pd.isna` accepts), a string, a number (Python floats modelled as
rationals), a boolean, or a datetime (modelled as a calendar date). -/
inductive Cell where
  | missing : Cell
  | str : List Char → Cell
  | num : ℚ → Cell
  | bool : Bool → Cell
  | date : Nat → Nat → Nat → Cell
deriving DecidableEq

/-- A data row: an ordered mapping from column name to cell, the model of
one `pd.Series` with its index. -/
abbrev Row := List (ColName × Cell)

/-- A raw rule value as read from a pattern file: a string, a literal
boolean, or an integer. -/
inductive RawVal where
  | str : List Char → RawVal
  | bool : Bool → RawVal
  | int : Int → RawVal
deriving DecidableEq

/-- A raw rule: mapping from column name to list of raw values. -/
abbrev RawPattern := List (ColName × List RawVal)

/-- Decimal digits of a natural number. -/
def natRepr (n : Nat) : List Char := (Nat.repr n).toList

/-- Python `str` of an integer. -/
def intRepr (n : Int) : List Char :=
  if n < 0 then '-' :: natRepr n.natAbs else natRepr n.natAbs

/-- Python `str()` of a raw rule value (`str(True) = "True"`). -/
def rawValToString : RawVal → List Char
  | .str s => s
  | .bool b => if b then "True".toList else "False".toList
  | .int n => intRepr n

/-- Python `str()` of a cell value. Strings are themselves; booleans print
as `True` and `False`; a numeric cell holds a Python float, whose `str`
carries a trailing `.0` when integral (the non-integral float repr is
approximated by numerator and denominator digits, which no theorem of
this development evaluates). -/
def cellToString : Cell → List Char
  | .missing => "nan".toList
  | .str s => s
  | .bool b => if b then "True".toList else "False".toList
  | .num q =>
      if q.den = 1 then intRepr q.num ++ ".0".toList
      else intRepr q.num ++ '/' :: natRepr q.den
  | .date y m d => natRepr y ++ '-' :: natRepr m ++ '-' :: natRepr d

/-- Python truthiness of a cell (`not row_value`): empty string, zero and
`False` are falsy. `_normalize_text_for_comparison` returns the empty
string for a falsy argument before ever calling `str()`. -/
def cellFalsy : Cell → Bool
  | .missing => true
  | .str s => s = []
  | .num q => q = 0
  | .bool b => !b
  | .date _ _ _ => false

/-- `_normalize_text_for_comparison` applied to a raw cell value: the
falsy guard (`if not text`) fires before string coercion. -/
def normalizeCellForComparison (c : Cell) : List Char :=
  if cellFalsy c then [] else normalizeForComparison (cellToString c)

/-! ### Parsing of numeric and date condition tokens -/

/-- Comparison operators accepted by the rule language. -/
inductive Op where
  | lt : Op
  | gt : Op
  | eq : Op
deriving DecidableEq

/-- A processed numeric condition: operator and numeric value. -/
abbrev NumCond := Op × ℚ

/-- A calendar date `(year, month, day)`. -/
abbrev PyDate := Nat × Nat × Nat

/-- A processed date condition: operator and date. -/
abbrev DateCond := Op × PyDate

/-- Digits of a token, as a natural number, if the token is a non-empty
digit string. -/
def digitsToNat? (s : List Char) : Option Nat :=
  if s = [] || !s.all Char.isDigit then none
  else some (s.foldl (fun acc c => 10 * acc + (c.toNat - '0'.toNat)) 0)

/-- Python `float(string)`: strip, optional sign, decimal digits with an
optional fractional part (exponent forms are not modelled; no theorem of
this development evaluates them). -/
def parseFloat (s : List Char) : Option ℚ :=
  let t := pyStrip s
  let (sign, body) :=
    match t with
    | '-' :: rest => ((-1 : ℚ), rest)
    | '+' :: rest => ((1 : ℚ), rest)
    | _ => ((1 : ℚ), t)
  let intPart := body.takeWhile Char.isDigit
  let rest := body.dropWhile Char.isDigit
  match rest with
  | [] =>
    (digitsToNat? intPart).map (fun n => sign * n)
  | '.' :: frac =>
    if !frac.all Char.isDigit then none
    else if intPart = [] && frac = [] then none
    else
      let ip := (digitsToNat? intPart).getD 0
      let fp := (digitsToNat? frac).getD 0
      some (sign * ((ip : ℚ) + (fp : ℚ) / ((10 : ℚ) ^ frac.length)))
  | _ => none

/-- Python `float(value)` on a raw rule value: booleans coerce to 1 and 0,
integers to themselves, strings are parsed, anything unparsable fails. -/
def rawValToFloat : RawVal → Option ℚ
  | .str s => parseFloat s
  | .bool b => some (if b then 1 else 0)
  | .int n => some (n : ℚ)

/-- Number of days of a month, with leap years. -/
def daysInMonth (y m : Nat) : Nat :=
  if m = 2 then
    if (y % 4 = 0 && y % 100 ≠ 0) || y % 400 = 0 then 29 else 28
  else if m = 4 || m = 6 || m = 9 || m = 11 then 30
  else 31

/-- `datetime.strptime(s, '%Y-%m-%d')`: three dash-separated digit groups
(year up to four digits, month and day up to two), month 1 to 12, day
within the month. Any other shape fails. -/
def parseDate (s : List Char) : Option PyDate :=
  match s.splitOn '-' with
  | [ys, ms, ds] =>
    if ys.length ≤ 4 && ms.length ≤ 2 && ds.length ≤ 2 then
      match digitsToNat? ys, digitsToNat? ms, digitsToNat? ds with
      | some y, some m, some d =>
        if 1 ≤ m && m ≤ 12 && 1 ≤ d && d ≤ daysInMonth y m then some (y, m, d)
        else none
      | _, _, _ => none
    else none
  | _ => none

/-- The leading comparison operator of a token, per the capture group
`([<>=])` of the processing regexes. -/
def opOfChar (c : Char) : Option Op :=
  if c = '<' then some .lt else if c = '>' then some .gt
  else if c = '=' then some .eq else none

/-- `Analyzer._process_numeric_values` on one raw value: the regex
`([<>=])(.+)` splits operator and payload; without an operator the whole
value is coerced with `float(value)` under a default `=`; failures are
dropped. -/
def parseNumCond (v : RawVal) : Option NumCond :=
  match rawValToString v with
  | c :: rest =>
    match opOfChar c with
    | some op =>
      if rest = [] then (rawValToFloat v).map (fun q => (Op.eq, q))
      else (parseFloat rest).map (fun q => (op, q))
    | none => (rawValToFloat v).map (fun q => (Op.eq, q))
  | [] => (rawValToFloat v).map (fun q => (Op.eq, q))

/-- `Analyzer._process_numeric_values` (analyzer.py lines 227 to 263). -/
def processNumericValues (values : List RawVal) : List NumCond :=
  values.filterMap parseNumCond

/-- `Analyzer._process_date_values` on one raw value: operator split as in
the numeric case, payload parsed by `strptime`; without an operator only a
string value can parse (`strptime` of a non-string raises and the value is
dropped). -/
def parseDateCond (v : RawVal) : Option DateCond :=
  match rawValToString v with
  | c :: rest =>
    match opOfChar c with
    | some op =>
      if rest = [] then
        match v with
        | .str s => (parseDate s).map (fun d => (Op.eq, d))
        | _ => none
      else (parseDate rest).map (fun d => (op, d))
    | none =>
      match v with
      | .str s => (parseDate s).map (fun d => (Op.eq, d))
      | _ => none
  | [] =>
    match v with
    | .str s => (parseDate s).map (fun d => (Op.eq, d))
    | _ => none

/-- `Analyzer._process_date_values` (analyzer.py lines 265 to 301). -/
def processDateValues (values : List RawVal) : List DateCond :=
  values.filterMap parseDateCond

/-! ### Rule compilation (`Analyzer._process_patterns`) -/

/-- `Analyzer._is_numeric_field`: the regex `[<>=]` followed by at least
one digit, anchored at the start only. -/
def isNumericField (s : List Char) : Bool :=
  match s with
  | c :: d :: _ => (opOfChar c).isSome && d.isDigit
  | _ => false

/-- `Analyzer._is_date_field`: the regex `[<>=]` followed by four digits,
dash, two digits, dash, two digits, anchored at the start only. -/
def isDateField (s : List Char) : Bool :=
  match s with
  | c :: y1 :: y2 :: y3 :: y4 :: h1 :: m1 :: m2 :: h2 :: d1 :: d2 :: _ =>
    (opOfChar c).isSome && y1.isDigit && y2.isDigit && y3.isDigit && y4.isDigit
      && h1 = '-' && m1.isDigit && m2.isDigit && h2 = '-' && d1.isDigit && d2.isDigit
  | _ => false

/-- Whether a raw value is a genuine (non-stringified) boolean. -/
def isBoolVal : RawVal → Bool
  | .bool _ => true
  | _ => false

/-- `Analyzer._is_boolean_field`: non-empty and every value a genuine
boolean. -/
def isBooleanField (values : List RawVal) : Bool :=
  !values.isEmpty && values.all isBoolVal

/-- `Analyzer._clean_pattern_text` applied to one raw value: the falsy
guard (`if not text`) fires before string coercion, so `False` and `0`
clean to the empty string. -/
def cleanPatternValue : RawVal → List Char
  | .str s => cleanPatternText s
  | .bool b => if b then cleanPatternText "True".toList else []
  | .int n => if n = 0 then [] else cleanPatternText (intRepr n)

/-- The accepted boolean values of a boolean bucket column: the raw
values stored verbatim, read back as booleans. -/
def boolValues (values : List RawVal) : List Bool :=
  values.filterMap (fun v => match v with | .bool b => some b | _ => none)

/-- A compiled rule: the four per-kind buckets built by
`Analyzer._process_patterns`, each an insertion-ordered mapping from
normalized column name to condition list. -/
structure CompiledRule where
  string_fields : List (ColName × List (List Char))
  numeric_fields : List (ColName × List NumCond)
  date_fields : List (ColName × List DateCond)
  boolean_fields : List (ColName × List Bool)
deriving DecidableEq

/-- The compiled rule with all four buckets empty. -/
def emptyCompiled : CompiledRule :=
  { string_fields := [], numeric_fields := [], date_fields := [], boolean_fields := [] }

/-- Python dict assignment `d[k] = v` on an insertion-ordered association
list: replace in place when the key is present, append otherwise. -/
def insertA {α : Type} (l : List (ColName × α)) (k : ColName) (v : α) :
    List (ColName × α) :=
  match l with
  | [] => [(k, v)]
  | (k', v') :: rest => if k' = k then (k, v) :: rest else (k', v') :: insertA rest k v

/-- One iteration of the column loop of `_process_patterns`: skip empty
value lists, classify by the first value's stringified shape (date, then
numeric, then all-boolean, else string) and assign into the matching
bucket under the normalized column name. -/
def processColumn (acc : CompiledRule) (col : ColName) (values : List RawVal) :
    CompiledRule :=
  match values with
  | [] => acc
  | v₀ :: _ =>
    let ncol := normalizeColumnName col
    let firstValue := rawValToString v₀
    if isDateField firstValue then
      { acc with date_fields := insertA acc.date_fields ncol (processDateValues values) }
    else if isNumericField firstValue then
      { acc with numeric_fields := insertA acc.numeric_fields ncol (processNumericValues values) }
    else if isBooleanField values then
      { acc with boolean_fields := insertA acc.boolean_fields ncol (boolValues values) }
    else
      { acc with string_fields := insertA acc.string_fields ncol (values.map cleanPatternValue) }

/-- The column loop of `_process_patterns`, left to right. -/
def processPatternAux (acc : CompiledRule) : RawPattern → CompiledRule
  | [] => acc
  | (col, values) :: rest => processPatternAux (processColumn acc col values) rest

/-- Compilation of one raw rule (`Analyzer._process_patterns`, analyzer.py
lines 168 to 211, restricted to a single pattern). -/
def processPattern (pattern : RawPattern) : CompiledRule :=
  processPatternAux emptyCompiled pattern

/-! ### Condition evaluators -/

/-- Python substring test `needle in hay`. -/
def pyIn (needle hay : List Char) : Bool := decide (needle <:+: hay)

/-- `Analyzer._calculate_similarity` (analyzer.py lines 337 to 366):
Jaccard similarity of the whitespace-split word sets, 0 when either text
or either word set is empty. -/
def calculateSimilarity (text1 text2 : List Char) : ℚ :=
  if text1 = [] || text2 = [] then 0
  else
    let words1 := (pySplit text1).dedup
    let words2 := (pySplit text2).dedup
    if words1 = [] || words2 = [] then 0
    else
      let inter := (words1.inter words2).length
      let union := (words1.union words2).length
      if union = 0 then 0 else (inter : ℚ) / (union : ℚ)

/-- The comparison `self._calculate_similarity(text1, text2) > 0.7` with
the division carried out by integer cross-multiplication, so that it
evaluates by kernel reduction; `similarityGt07_eq` proves it equal to the
ratio comparison on `calculateSimilarity`. -/
def similarityGt07 (text1 text2 : List Char) : Bool :=
  if text1 = [] || text2 = [] then false
  else
    let words1 := (pySplit text1).dedup
    let words2 := (pySplit text2).dedup
    if words1 = [] || words2 = [] then false
    else
      let inter := (words1.inter words2).length
      let union := (words1.union words2).length
      if union = 0 then false else decide (7 * union < 10 * inter)

/-- `Analyzer._check_string_condition` (analyzer.py lines 303 to 335):
missing cell fails; otherwise some pattern value must be a substring of
the normalized cell, contain it, or exceed similarity 0.7 against it. -/
def checkStringCondition (rowValue : Cell) (patternValues : List (List Char)) : Bool :=
  match rowValue with
  | .missing => false
  | _ =>
    let rowStr := normalizeCellForComparison rowValue
    patternValues.any (fun pv =>
      let np := normalizeForComparison pv
      pyIn np rowStr || pyIn rowStr np || similarityGt07 np rowStr)

/-- Python `float(row_value)` on a cell: numbers are themselves, booleans
coerce to 1 and 0, strings parse, datetimes fail. -/
def cellToFloat : Cell → Option ℚ
  | .missing => none
  | .str s => parseFloat s
  | .num q => some q
  | .bool b => some (if b then 1 else 0)
  | .date _ _ _ => none

/-- Evaluation of one comparison operator. -/
def evalOp {α : Type} [LT α] [DecidableEq α] [DecidableRel (· < · : α → α → Prop)]
    (op : Op) (rowVal condVal : α) : Bool :=
  match op with
  | .eq => rowVal = condVal
  | .gt => condVal < rowVal
  | .lt => rowVal < condVal

/-- `Analyzer._check_numeric_condition` (analyzer.py lines 368 to 399). -/
def checkNumericCondition (rowValue : Cell) (conds : List NumCond) : Bool :=
  match rowValue with
  | .missing => false
  | _ =>
    match cellToFloat rowValue with
    | none => false
    | some q => conds.any (fun c => evalOp c.1 q c.2)

/-- Calendar-date ordering (lexicographic year, month, day). -/
def dateLt (a b : PyDate) : Bool :=
  a.1 < b.1 || (a.1 = b.1 && (a.2.1 < b.2.1 || (a.2.1 = b.2.1 && a.2.2 < b.2.2)))

/-- Evaluation of one date comparison. -/
def evalDateOp (op : Op) (rowVal condVal : PyDate) : Bool :=
  match op with
  | .eq => rowVal = condVal
  | .gt => dateLt condVal rowVal
  | .lt => dateLt rowVal condVal

/-- `Analyzer._check_date_condition` (analyzer.py lines 401 to 438): the
cell must be a datetime or a string in `YYYY-MM-DD` form. -/
def checkDateCondition (rowValue : Cell) (conds : List DateCond) : Bool :=
  match rowValue with
  | .missing => false
  | .str s =>
    match parseDate s with
    | none => false
    | some d => conds.any (fun c => evalDateOp c.1 d c.2)
  | .date y m d => conds.any (fun c => evalDateOp c.1 (y, m, d) c.2)
  | _ => false

/-- The truthy strings of `_check_boolean_condition`. -/
def truthyStrings : List (List Char) :=
  ["true".toList, "1".toList, "yes".toList, "verdadero".toList]

/-- `Analyzer._check_boolean_condition` (analyzer.py lines 440 to 464). -/
def checkBooleanCondition (rowValue : Cell) (patternValues : List Bool) : Bool :=
  match rowValue with
  | .missing => false
  | .bool b => patternValues.contains b
  | .str s => patternValues.contains (truthyStrings.contains (pyLower s))
  | .num q => patternValues.contains (decide (q ≠ 0))
  | .date _ _ _ => false

/-! ### Row matching (`Analyzer._check_row_matches_pattern`) -/

/-- The column labels of a row (`row.index`). -/
def rowColumns (row : Row) : List ColName := row.map Prod.fst

/-- The cell of a row at a column label (`row[actual_column]`; only called
with labels returned by the column search, which are present). -/
def getCell (row : Row) (col : ColName) : Cell :=
  match row.find? (fun p => p.1 = col) with
  | some p => p.2
  | none => .missing

/-- `find_column_case_insensitive` (analyzer.py lines 484 to 493): walk
the row's column labels and return the first whose normalized name equals
the normalized rule column name. -/
def findColumnCaseInsensitive (columnName : ColName) : List ColName → Option ColName
  | [] => none
  | col :: rest =>
    if normalizeColumnName col = normalizeColumnName columnName then some col
    else findColumnCaseInsensitive columnName rest

/-- Python `set.add` on the matched-column set, modelled as a duplicate-
free list. -/
def addMatched (name : ColName) (matched : List ColName) : List ColName :=
  if name ∈ matched then matched else name :: matched

/-- One bucket loop of `_check_row_matches_pattern`: for each referenced
column, locate the row column (short-circuit `none` when absent,
modelling the early `return False`), evaluate the cell, and record the
column in the matched set when its condition list is satisfied. -/
def checkFields {α : Type} (row : Row) (eval : Cell → α → Bool) :
    List (ColName × α) → List ColName → Option (List ColName)
  | [], matched => some matched
  | (name, conds) :: rest, matched =>
    match findColumnCaseInsensitive name (rowColumns row) with
    | none => none
    | some actual =>
      let matched' := if eval (getCell row actual) conds then addMatched name matched
                      else matched
      checkFields row eval rest matched'

/-- The number of referenced columns of a compiled rule
(`total_columns`). -/
def totalColumns (p : CompiledRule) : Nat :=
  p.string_fields.length + p.numeric_fields.length
    + p.date_fields.length + p.boolean_fields.length

/-- `Analyzer._check_row_matches_pattern` (analyzer.py lines 466 to 548)
on a compiled rule: the four bucket loops in source order, then the final
count comparison `len(matched_columns) == total_columns`. -/
def rowMatchesPattern (row : Row) (p : CompiledRule) : Bool :=
  match checkFields row checkStringCondition p.string_fields [] with
  | none => false
  | some m₁ =>
    match checkFields row checkNumericCondition p.numeric_fields m₁ with
    | none => false
    | some m₂ =>
      match checkFields row checkDateCondition p.date_fields m₂ with
      | none => false
      | some m₃ =>
        match checkFields row checkBooleanCondition p.boolean_fields m₃ with
        | none => false
        | some m₄ => m₄.length = totalColumns p

/-! ### The match engine (`Analyzer.apply_patterns`) -/

/-- Lookup in an insertion-ordered association list (Python `d[k]` and
`k in d`). -/
def lookupA {α : Type} (l : List (ColName × α)) (k : ColName) : Option α :=
  match l with
  | [] => none
  | (k', v) :: rest => if k' = k then some v else lookupA rest k

/-- Update an existing key of an association list in place
(`d[k] = f(d[k])` when `k` is already a key; absent keys are left
untouched, a case the engine never reaches because `results` is
initialized with every rule name). -/
def modifyA {α : Type} (l : List (ColName × α)) (k : ColName) (f : α → α) :
    List (ColName × α) :=
  match l with
  | [] => []
  | (k', v) :: rest => if k' = k then (k', f v) :: rest else (k', v) :: modifyA rest k f

/-- `Analyzer._process_patterns` over a whole rule set: compile each rule
and store it under its name (`self.processed_patterns`). -/
def processPatterns (patterns : List (ColName × RawPattern)) :
    List (ColName × CompiledRule) :=
  patterns.foldl (fun acc p => insertA acc p.1 (processPattern p.2)) []

/-- `Analyzer._check_row_matches_pattern` proper: lookup of the processed
pattern by name (absent name fails), then the compiled-rule match. -/
def checkRowMatchesPattern (processed : List (ColName × CompiledRule))
    (row : Row) (patternName : ColName) : Bool :=
  match lookupA processed patternName with
  | none => false
  | some p => rowMatchesPattern row p

/-- The per-language result mapping of one rule. -/
abbrev LangResults := List (ColName × List Row)

/-- The inner double loop of `apply_patterns` for one language: filter the
language's rows by each rule and store the matches under
`results[pattern_name][language]` only when non-empty. -/
def applyToLanguage (processed : List (ColName × CompiledRule))
    (patterns : List (ColName × RawPattern)) (results : List (ColName × LangResults))
    (language : ColName) (rows : List Row) : List (ColName × LangResults) :=
  patterns.foldl (fun res p =>
    let matchingRows := rows.filter (fun r => checkRowMatchesPattern processed r p.1)
    if matchingRows.isEmpty then res
    else modifyA res p.1 (fun inner => insertA inner language matchingRows)) results

/-- `Analyzer.apply_patterns` (analyzer.py lines 550 to 605): compile the
rules, initialize `results` with an empty inner mapping per rule name,
then iterate languages (outer) and rules (inner). -/
def applyPatterns (data : List (ColName × List Row))
    (patterns : List (ColName × RawPattern)) : List (ColName × LangResults) :=
  let processed := processPatterns patterns
  let init := patterns.foldl (fun acc p => insertA acc p.1 ([] : LangResults)) []
  data.foldl (fun results d => applyToLanguage processed patterns results d.1 d.2) init

/-! ### Merger deduplication (`DataReader.remove_duplicates`) -/

/-- The provenance metadata columns excluded from duplicate detection. -/
def metadataCols : List ColName :=
  ["_source_file".toList, "_source_path".toList, "_language".toList,
   "_sheet_name".toList]

/-- The deduplication key of a row: its cells on every column except the
provenance metadata columns (the default `subset` of
`remove_duplicates`). -/
def rowKey (r : Row) : Row :=
  r.filter (fun p => !metadataCols.contains p.1)

/-- `DataFrame.drop_duplicates(subset, keep='first')`: keep a row exactly
when its key has not appeared earlier; `seen` accumulates the keys of the
rows already kept. -/
def dropDuplicatesAux {α β : Type} [DecidableEq β] (key : α → β) (seen : List β) :
    List α → List α
  | [] => []
  | r :: rs =>
    if key r ∈ seen then dropDuplicatesAux key seen rs
    else r :: dropDuplicatesAux key (key r :: seen) rs

/-- `DataReader.remove_duplicates` (reader.py lines 237 to 287) on the
combined row list, with the default subset. -/
def removeDuplicates (combined : List Row) : List Row :=
  dropDuplicatesAux rowKey [] combined

/-! ### Derived notions used by the statements -/

/-- All column names referenced by a compiled rule, across the four
buckets. -/
def referencedColumns (p : CompiledRule) : List ColName :=
  p.string_fields.map Prod.fst ++ p.numeric_fields.map Prod.fst
    ++ p.date_fields.map Prod.fst ++ p.boolean_fields.map Prod.fst

/-- The four value kinds a rule column can be classified into. -/
inductive FieldKind where
  | stringK : FieldKind
  | numericK : FieldKind
  | dateK : FieldKind
  | booleanK : FieldKind
deriving DecidableEq

/-- The classification of a column by the shape of its first raw value,
in the decision order of `_process_patterns`: date test first, then
numeric, then all-boolean, else string; an empty values list has no
classification. -/
def classifyField (values : List RawVal) : Option FieldKind :=
  match values with
  | [] => none
  | v₀ :: _ =>
    some (if isDateField (rawValToString v₀) then .dateK
      else if isNumericField (rawValToString v₀) then .numericK
      else if isBooleanField values then .booleanK
      else .stringK)

/-- The column names stored in one bucket of a compiled rule. -/
def bucketNames (p : CompiledRule) : FieldKind → List ColName
  | .stringK => p.string_fields.map Prod.fst
  | .numericK => p.numeric_fields.map Prod.fst
  | .dateK => p.date_fields.map Prod.fst
  | .booleanK => p.boolean_fields.map Prod.fst

/-- The Jaccard word-set similarity exactly as the specification words it:
the ratio of intersection to union of the whitespace-split word sets, and
0 if either side has no words. -/
def jaccardWordSimilarity (t1 t2 : List Char) : ℚ :=
  let words1 := (pySplit t1).dedup
  let words2 := (pySplit t2).dedup
  if words1 = [] ∨ words2 = [] then 0
  else ((words1.inter words2).length : ℚ) / ((words1.union words2).length : ℚ)

/-- A character that every stage of `_normalize_text_for_comparison`
leaves unchanged: no canonical decomposition, not a combining mark, not
in the stripped punctuation set, and fixed by lowercasing. Every
character of a normalized string is stable, which is what makes a second
normalization pass act as a bare whitespace strip. -/
def stableChar (c : Char) : Prop :=
  decompose c = [c] ∧ isCombining c = false ∧ isPunct c = false ∧ pyLowerChar c = c

/-! ### Helper lemmas -/

theorem checkFields_some_found {α : Type} (row : Row) (eval : Cell → α → Bool) :
    ∀ (fields : List (ColName × α)) (acc m : List ColName),
      checkFields row eval fields acc = some m →
      ∀ nm ∈ fields.map Prod.fst,
        (findColumnCaseInsensitive nm (rowColumns row)).isSome := by
  intro fields
  induction fields with
  | nil => intro acc m _ nm hnm; simp at hnm
  | cons hd tl ih =>
    intro acc m h nm hnm
    obtain ⟨name, conds⟩ := hd
    simp only [checkFields] at h
    split at h
    · exact absurd h (by simp)
    · rename_i actual hfc
      simp only [List.map_cons, List.mem_cons] at hnm
      rcases hnm with rfl | hnm
      · simp [hfc]
      · exact ih _ _ h nm hnm

theorem processPatternAux_all_empty :
    ∀ (raw : RawPattern) (acc : CompiledRule),
      (∀ e ∈ raw, e.2 = ([] : List RawVal)) → processPatternAux acc raw = acc := by
  intro raw
  induction raw with
  | nil => intro acc _; rfl
  | cons hd tl ih =>
    intro acc h
    obtain ⟨c, vs⟩ := hd
    have hv : vs = [] := h (c, vs) (List.mem_cons_self _ _)
    subst hv
    exact ih acc (fun e he => h e (List.mem_cons_of_mem _ he))

theorem processPattern_all_empty (raw : RawPattern)
    (h : ∀ e ∈ raw, e.2 = ([] : List RawVal)) :
    processPattern raw = emptyCompiled :=
  processPatternAux_all_empty raw emptyCompiled h

/-! ### C1 -/

/-- C1: if any column referenced in any of a compiled rule's four buckets
has no corresponding column in the row (under column-name normalization),
the row matcher returns false, regardless of the other columns. -/
theorem c1_missing_column_never_matches (row : Row) (p : CompiledRule) (name : ColName)
    (hmem : name ∈ referencedColumns p)
    (hmiss : findColumnCaseInsensitive name (rowColumns row) = none) :
    rowMatchesPattern row p = false := by
  simp only [rowMatchesPattern]
  split
  · rfl
  · rename_i m₁ h₁
    split
    · rfl
    · rename_i m₂ h₂
      split
      · rfl
      · rename_i m₃ h₃
        split
        · rfl
        · rename_i m₄ h₄
          exfalso
          simp only [referencedColumns, List.mem_append] at hmem
          rcases hmem with ((hm | hm) | hm) | hm
          · have := checkFields_some_found row _ _ _ _ h₁ name hm
            rw [hmiss] at this; simp at this
          · have := checkFields_some_found row _ _ _ _ h₂ name hm
            rw [hmiss] at this; simp at this
          · have := checkFields_some_found row _ _ _ _ h₃ name hm
            rw [hmiss] at this; simp at this
          · have := checkFields_some_found row _ _ _ _ h₄ name hm
            rw [hmiss] at this; simp at this

/-- C1 witness: the rule on column `foro` against a row having only
column `bar`. -/
theorem c1_missing_column_never_matches_witness :
    ("foro".toList ∈ referencedColumns
      (processPattern [("foro".toList, [RawVal.str "cafe".toList])])) ∧
    findColumnCaseInsensitive "foro".toList
      (rowColumns [("bar".toList, Cell.str "cafe".toList)]) = none ∧
    rowMatchesPattern [("bar".toList, Cell.str "cafe".toList)]
      (processPattern [("foro".toList, [RawVal.str "cafe".toList])]) = false :=
  ⟨by decide, by decide,
    c1_missing_column_never_matches
      [("bar".toList, Cell.str "cafe".toList)]
      (processPattern [("foro".toList, [RawVal.str "cafe".toList])])
      "foro".toList (by decide) (by decide)⟩

/-! ### C2 -/

/-- C2: a compiled rule whose four buckets are all empty matches every
row; in particular a rule compiled from an empty pattern mapping, or from
a mapping whose every column has an empty values list (such columns are
skipped), matches every row. -/
theorem c2_empty_rule_matches_every_row (row : Row) (p : CompiledRule) (raw : RawPattern)
    (hs : p.string_fields = []) (hn : p.numeric_fields = [])
    (hd : p.date_fields = []) (hb : p.boolean_fields = [])
    (hraw : ∀ e ∈ raw, e.2 = ([] : List RawVal)) :
    rowMatchesPattern row p = true ∧
    processPattern raw = emptyCompiled ∧
    rowMatchesPattern row (processPattern ([] : RawPattern)) = true := by
  have hbase : ∀ q : CompiledRule, q.string_fields = [] → q.numeric_fields = [] →
      q.date_fields = [] → q.boolean_fields = [] → rowMatchesPattern row q = true := by
    intro q qs qn qd qb
    simp [rowMatchesPattern, qs, qn, qd, qb, checkFields, totalColumns]
  refine ⟨hbase p hs hn hd hb, processPattern_all_empty raw hraw, hbase _ rfl rfl rfl rfl⟩

/-- C2 witness: a rule of one column with an empty values list, applied
to a one-cell row. -/
theorem c2_empty_rule_matches_every_row_witness :
    (emptyCompiled.string_fields = [] ∧ emptyCompiled.numeric_fields = [] ∧
      emptyCompiled.date_fields = [] ∧ emptyCompiled.boolean_fields = []) ∧
    (∀ e ∈ [("x".toList, ([] : List RawVal))], e.2 = ([] : List RawVal)) ∧
    (rowMatchesPattern [("a".toList, Cell.str "b".toList)] emptyCompiled = true ∧
      processPattern [("x".toList, ([] : List RawVal))] = emptyCompiled ∧
      rowMatchesPattern [("a".toList, Cell.str "b".toList)]
        (processPattern ([] : RawPattern)) = true) :=
  ⟨⟨rfl, rfl, rfl, rfl⟩, by decide,
    c2_empty_rule_matches_every_row [("a".toList, Cell.str "b".toList)]
      emptyCompiled [("x".toList, ([] : List RawVal))]
      rfl rfl rfl rfl (by decide)⟩

/-! ### C5 -/

/-- C5: normalize_for_comparison applies, in order, string coercion and
whitespace strip, canonical decomposition, combining-mark removal,
removal of the fixed punctuation set, and lowercasing; empty input yields
the empty string, and the two documented examples evaluate as stated. -/
theorem c5_normalize_steps_and_examples :
    (∀ t : List Char, normalizeForComparison t =
      if t = [] then []
      else pyLower (removePunct (removeCombining (nfd (pyStrip t))))) ∧
    normalizeForComparison [] = [] ∧
    normalizeForComparison "Café!".toList = "cafe".toList ∧
    normalizeForComparison "  HELLO, World.  ".toList = "hello world".toList :=
  ⟨fun _ => rfl, rfl, by decide, by decide⟩

/-! ### C10 -/

/-- C10: a string bucket containing a pattern value whose normalized form
is empty makes the string condition evaluator succeed on every
non-missing cell, because the empty string is a substring of every
normalized cell. -/
theorem c10_empty_pattern_value_accepts_all (cell : Cell) (ps : List (List Char))
    (p : List Char) (hp : p ∈ ps) (hnorm : normalizeForComparison p = [])
    (hcell : cell ≠ Cell.missing) :
    checkStringCondition cell ps = true := by
  cases cell
  case missing => exact absurd rfl hcell
  all_goals
    simp only [checkStringCondition]
    refine List.any_eq_true.mpr ⟨p, hp, ?_⟩
    simp [pyIn, hnorm, List.nil_infix]

/-! ### C3 -/

theorem similarityGt07_eq (t1 t2 : List Char) :
    similarityGt07 t1 t2 = decide ((7 : ℚ) / 10 < calculateSimilarity t1 t2) := by
  simp only [similarityGt07, calculateSimilarity]
  split
  · simp
    norm_num
  · split
    · simp
      norm_num
    · rename_i hw
      split
      · rename_i hu
        simp [hu]
        norm_num
      · rename_i hu
        have hu' : 0 < ((((pySplit t1).dedup.union (pySplit t2).dedup).length : ℚ)) := by
          exact_mod_cast Nat.pos_of_ne_zero hu
        rw [decide_eq_decide, div_lt_div_iff₀ (by norm_num) hu']
        constructor
        · intro h
          exact_mod_cast (by omega :
            7 * ((pySplit t1).dedup.union (pySplit t2).dedup).length <
              ((pySplit t1).dedup.inter (pySplit t2).dedup).length * 10)
        · intro h
          have h' : 7 * ((pySplit t1).dedup.union (pySplit t2).dedup).length <
              ((pySplit t1).dedup.inter (pySplit t2).dedup).length * 10 := by
            exact_mod_cast h
          omega

theorem calculateSimilarity_eq_jaccard (t1 t2 : List Char) :
    calculateSimilarity t1 t2 = jaccardWordSimilarity t1 t2 := by
  simp only [calculateSimilarity, jaccardWordSimilarity]
  split
  · rename_i h
    simp only [Bool.or_eq_true, decide_eq_true_eq] at h
    rcases h with rfl | rfl
    · simp [pySplit, pySplitAux]
    · simp [pySplit, pySplitAux]
  · split
    · rename_i hw
      simp only [Bool.or_eq_true, decide_eq_true_eq] at hw
      rw [if_pos hw]
    · rename_i hw
      simp only [Bool.or_eq_true, decide_eq_true_eq, not_or] at hw
      rw [if_neg (not_or.mpr ⟨hw.1, hw.2⟩)]
      split
      · rename_i hu
        rw [hu]
        simp
      · rfl

/-- C3: the string condition evaluator rejects a missing cell, and
otherwise succeeds exactly when some pattern value, after normalizing
both sides, is a substring of the normalized cell, contains it, or has
Jaccard word-set similarity above 0.7 with it (similarity being the ratio
of intersection to union of the whitespace-split word sets, 0 when either
side has no words); the rule on `foro` with value `cafe` matches the
cells `Café` and `mi cafe favorito`. -/
theorem c3_string_condition_spec (cell : Cell) (ps : List (List Char)) :
    checkStringCondition Cell.missing ps = false ∧
    (∀ t1 t2 : List Char, calculateSimilarity t1 t2 = jaccardWordSimilarity t1 t2) ∧
    (cell ≠ Cell.missing →
      (checkStringCondition cell ps = true ↔
        ∃ p ∈ ps,
          normalizeForComparison p <:+: normalizeCellForComparison cell ∨
          normalizeCellForComparison cell <:+: normalizeForComparison p ∨
          (7 : ℚ) / 10 < calculateSimilarity (normalizeForComparison p)
            (normalizeCellForComparison cell))) ∧
    rowMatchesPattern [("foro".toList, Cell.str "Café".toList)]
      (processPattern [("foro".toList, [RawVal.str "cafe".toList])]) = true ∧
    rowMatchesPattern [("foro".toList, Cell.str "mi cafe favorito".toList)]
      (processPattern [("foro".toList, [RawVal.str "cafe".toList])]) = true := by
  refine ⟨rfl, calculateSimilarity_eq_jaccard, ?_, by decide, by decide⟩
  intro hne
  cases cell
  case missing => exact absurd rfl hne
  all_goals
    simp only [checkStringCondition, List.any_eq_true, pyIn, similarityGt07_eq,
      Bool.or_eq_true, decide_eq_true_eq, or_assoc]

/-- C3 witness: the evaluator characterization instantiated at the cell
`Café` against the single pattern value `cafe`. -/
theorem c3_string_condition_spec_witness :
    (Cell.str "Café".toList ≠ Cell.missing) ∧
    (checkStringCondition (Cell.str "Café".toList) ["cafe".toList] = true ↔
      ∃ p ∈ ["cafe".toList],
        normalizeForComparison p <:+: normalizeCellForComparison (Cell.str "Café".toList) ∨
        normalizeCellForComparison (Cell.str "Café".toList) <:+: normalizeForComparison p ∨
        (7 : ℚ) / 10 < calculateSimilarity (normalizeForComparison p)
          (normalizeCellForComparison (Cell.str "Café".toList))) :=
  ⟨by decide,
    (c3_string_condition_spec (Cell.str "Café".toList) ["cafe".toList]).2.2.1 (by decide)⟩

/-! ### C6 -/

theorem mem_insertA_keys {α : Type} (l : List (ColName × α)) (k : ColName) (v : α)
    (n : ColName) :
    n ∈ (insertA l k v).map Prod.fst ↔ n = k ∨ n ∈ l.map Prod.fst := by
  induction l with
  | nil =>
    refine ⟨fun h => Or.inl (List.mem_singleton.mp h), fun h => ?_⟩
    rcases h with rfl | h
    · exact List.mem_singleton.mpr rfl
    · exact absurd h (List.not_mem_nil n)
  | cons hd tl ih =>
    obtain ⟨k', v'⟩ := hd
    simp only [insertA]
    split
    · rename_i heq
      subst heq
      simp only [List.map_cons, List.mem_cons]
      tauto
    · simp only [List.map_cons, List.mem_cons, ih]
      tauto

theorem processColumn_bucketNames (acc : CompiledRule) (col : ColName)
    (values : List RawVal) (k : FieldKind) (n : ColName) :
    n ∈ bucketNames (processColumn acc col values) k ↔
      (normalizeColumnName col = n ∧ classifyField values = some k) ∨
        n ∈ bucketNames acc k := by
  cases values with
  | nil => simp [processColumn, classifyField]
  | cons v vs =>
    simp only [processColumn, classifyField]
    split_ifs <;> cases k <;>
      simp only [bucketNames, mem_insertA_keys, Option.some.injEq] <;>
      simp [eq_comm]

theorem processPatternAux_bucketNames :
    ∀ (rp : RawPattern) (acc : CompiledRule) (k : FieldKind) (n : ColName),
      n ∈ bucketNames (processPatternAux acc rp) k ↔
        (∃ e ∈ rp, normalizeColumnName e.1 = n ∧ classifyField e.2 = some k) ∨
          n ∈ bucketNames acc k := by
  intro rp
  induction rp with
  | nil => simp [processPatternAux]
  | cons hd tl ih =>
    intro acc k n
    obtain ⟨c, vs⟩ := hd
    simp only [processPatternAux]
    rw [ih, processColumn_bucketNames]
    simp only [List.mem_cons]
    constructor
    · rintro (⟨e, he, hn, hk⟩ | (⟨hn, hk⟩ | hacc))
      · exact Or.inl ⟨e, Or.inr he, hn, hk⟩
      · exact Or.inl ⟨(c, vs), Or.inl rfl, hn, hk⟩
      · exact Or.inr hacc
    · rintro (⟨e, (rfl | he), hn, hk⟩ | hacc)
      · exact Or.inr (Or.inl ⟨hn, hk⟩)
      · exact Or.inl ⟨e, he, hn, hk⟩
      · exact Or.inr (Or.inr hacc)

/-- C6 counterexample: the unconditional one-bucket invariant fails. The
raw keys `tweet id` and `tweet_id` are distinct dict keys, yet both
normalize to `tweet_id` under the synonym table of
`_normalize_column_name`; compiled with a string-shaped first value under
one key and a numeric-shaped first value under the other, the single
normalized column `tweet_id` ends up in the string bucket and in the
numeric bucket at once. -/
theorem c6_counterexample_colliding_names_two_buckets :
    normalizeColumnName "tweet id".toList ∈
      bucketNames (processPattern
        [("tweet id".toList, [RawVal.str "hello".toList]),
         ("tweet_id".toList, [RawVal.str ">5".toList])]) FieldKind.stringK ∧
    normalizeColumnName "tweet id".toList ∈
      bucketNames (processPattern
        [("tweet id".toList, [RawVal.str "hello".toList]),
         ("tweet_id".toList, [RawVal.str ">5".toList])]) FieldKind.numericK := by
  exact ⟨by decide, by decide⟩

/-- C6 amended: each column entry with a non-empty values list is placed
in the bucket selected by the shape of its first raw value (date pattern,
else numeric pattern, else all-boolean, else string), and — provided the
rule's normalized column names are pairwise distinct — its normalized
name appears in that bucket and in no other; when two distinct raw keys
collide under column-name normalization, the shared normalized name can
appear in two buckets. -/
theorem c6_column_in_exactly_one_bucket (rp : RawPattern)
    (hnodup : (rp.map (fun e => normalizeColumnName e.1)).Nodup)
    (col : ColName) (values : List RawVal)
    (hmem : (col, values) ∈ rp) (_hne : values ≠ []) :
    ∀ k : FieldKind,
      normalizeColumnName col ∈ bucketNames (processPattern rp) k ↔
        classifyField values = some k := by
  intro k
  rw [processPattern, processPatternAux_bucketNames]
  constructor
  · rintro (⟨e, he, hn, hk⟩ | habs)
    · have heq : e = (col, values) :=
        List.inj_on_of_nodup_map hnodup he hmem hn
      rw [heq] at hk
      exact hk
    · exfalso
      cases k <;> simp [bucketNames, emptyCompiled] at habs
  · intro h
    exact Or.inl ⟨(col, values), hmem, rfl, h⟩

/-- C6 witness: a two-column rule, one string column and one boolean
column, with distinct normalized names; the first column sits in the
string bucket and in no other. -/
theorem c6_column_in_exactly_one_bucket_witness :
    (([("A".toList, [RawVal.str "x".toList]), ("b".toList, [RawVal.bool true])].map
        (fun e => normalizeColumnName e.1)).Nodup) ∧
    (("A".toList, [RawVal.str "x".toList]) ∈
      [("A".toList, [RawVal.str "x".toList]), ("b".toList, [RawVal.bool true])]) ∧
    ([RawVal.str "x".toList] ≠ ([] : List RawVal)) ∧
    (normalizeColumnName "A".toList ∈
        bucketNames (processPattern
          [("A".toList, [RawVal.str "x".toList]), ("b".toList, [RawVal.bool true])])
          FieldKind.stringK ↔
      classifyField [RawVal.str "x".toList] = some FieldKind.stringK) :=
  ⟨by decide, by decide, by decide,
    c6_column_in_exactly_one_bucket
      [("A".toList, [RawVal.str "x".toList]), ("b".toList, [RawVal.bool true])]
      (by decide) "A".toList [RawVal.str "x".toList] (by decide) (by decide)
      FieldKind.stringK⟩

/-! ### C7 -/

theorem lookup_mem_of_eq_some {β : Type} :
    ∀ (l : List (Char × β)) (k : Char) (v : β),
      l.lookup k = some v → (k, v) ∈ l := by
  intro l
  induction l with
  | nil => intro k v h; simp [List.lookup] at h
  | cons hd tl ih =>
    intro k v h
    obtain ⟨k', v'⟩ := hd
    simp only [List.lookup] at h
    split at h
    · rename_i hbeq
      obtain rfl := eq_of_beq hbeq
      obtain rfl := Option.some.inj h
      exact List.mem_cons_self _ _
    · exact List.mem_cons_of_mem _ (ih k v h)

theorem pyLowerChar_idem (c : Char) : pyLowerChar (pyLowerChar c) = pyLowerChar c := by
  unfold pyLowerChar
  cases h : lowerTable.lookup c with
  | none => simp [h]
  | some d =>
    simp only [h, Option.getD_some]
    have hmem : (c, d) ∈ lowerTable := lookup_mem_of_eq_some _ _ _ h
    have hnone : ∀ p ∈ lowerTable, lowerTable.lookup p.2 = none := by decide
    simp [hnone _ hmem]

theorem pyLower_idem (s : List Char) : pyLower (pyLower s) = pyLower s := by
  simp only [pyLower, List.map_map]
  exact List.map_congr_left (fun c _ => pyLowerChar_idem c)

/-- C7 counterexample: under `normalize_column_name`, accents are not
folded, so two column names differing only in an accent are treated as
different columns: the rule column `Foró` is not located in a row whose
only column is `foro`. -/
theorem c7_counterexample_accents_not_folded :
    normalizeColumnName "Foró".toList ≠ normalizeColumnName "foro".toList ∧
    findColumnCaseInsensitive "Foró".toList ["foro".toList] = none := by
  exact ⟨by decide, by decide⟩

/-- C7 amended: RowMatcher locates a row's column by applying
`normalize_column_name` to both the rule's column name and each row
column name and testing equality (first match wins), so the match is
case-insensitive and insensitive to surrounding whitespace and internal
whitespace runs (plus the fixed synonym table) — but accents are not
folded, so names differing only in accents are distinct columns. -/
theorem c7_amended_column_locating :
    (∀ (name : ColName) (cols : List ColName),
      findColumnCaseInsensitive name cols =
        cols.find? (fun c => normalizeColumnName c == normalizeColumnName name)) ∧
    (∀ s : ColName, normalizeColumnName (pyLower s) = normalizeColumnName s) ∧
    normalizeColumnName "  FORO   Name ".toList = normalizeColumnName "foro name".toList ∧
    findColumnCaseInsensitive "Tweet   ID".toList ["TWEET_ID".toList] =
      some "TWEET_ID".toList := by
  refine ⟨?_, ?_, by decide, by decide⟩
  · intro name cols
    induction cols with
    | nil => rfl
    | cons c rest ih =>
      simp only [findColumnCaseInsensitive, List.find?]
      by_cases h : normalizeColumnName c = normalizeColumnName name
      · simp [h]
      · simp only [h, if_false, ih]
        rw [show (normalizeColumnName c == normalizeColumnName name) = false by
          simpa using h]
  · intro s
    unfold normalizeColumnName
    by_cases hs : s = []
    · subst hs
      simp [pyLower]
    · have hps : ¬(pyLower s = []) := fun h => hs (List.map_eq_nil_iff.mp h)
      rw [if_neg hps, if_neg hs, pyLower_idem]

/-! ### C4 -/

theorem decompTable_outputs_stable :
    ∀ p ∈ decompTable, ∀ d ∈ p.2,
      isCombining d = true ∨
        (decompTable.lookup (pyLowerChar d) = none ∧
          isCombining (pyLowerChar d) = false ∧ isPunct (pyLowerChar d) = false ∧
          lowerTable.lookup (pyLowerChar d) = none) := by decide

theorem lowerTable_outputs_stable :
    ∀ p ∈ lowerTable,
      decompTable.lookup p.1 ≠ none ∨
        (decompTable.lookup p.2 = none ∧ isCombining p.2 = false ∧
          isPunct p.2 = false ∧ lowerTable.lookup p.2 = none) := by decide

theorem stableChar_of_lookups (c : Char) (h1 : decompTable.lookup c = none)
    (h2 : isCombining c = false) (h3 : isPunct c = false)
    (h4 : lowerTable.lookup c = none) : stableChar c := by
  refine ⟨?_, h2, h3, ?_⟩
  · rw [decompose, h1, Option.getD_none]
  · rw [pyLowerChar, h4, Option.getD_none]

theorem stableChar_of_table_output (p : Char × List Char) (hp : p ∈ decompTable)
    (d : Char) (hd : d ∈ p.2) (hcomb : isCombining d = false) :
    stableChar (pyLowerChar d) := by
  rcases decompTable_outputs_stable p hp d hd with h | ⟨h1, h2, h3, h4⟩
  · rw [h] at hcomb; cases hcomb
  · exact stableChar_of_lookups _ h1 h2 h3 h4

theorem stableChar_of_nontable (c : Char) (hc : decompTable.lookup c = none)
    (hcomb : isCombining c = false) (hpunct : isPunct c = false) :
    stableChar (pyLowerChar c) := by
  cases hlk : lowerTable.lookup c with
  | none =>
    rw [pyLowerChar, hlk, Option.getD_none]
    exact stableChar_of_lookups c hc hcomb hpunct hlk
  | some d =>
    rw [pyLowerChar, hlk, Option.getD_some]
    rcases lowerTable_outputs_stable (c, d) (lookup_mem_of_eq_some _ _ _ hlk) with
      h | ⟨h1, h2, h3, h4⟩
    · exact absurd hc h
    · exact stableChar_of_lookups d h1 h2 h3 h4

theorem mem_of_mem_pyStrip (c : Char) (l : List Char) (h : c ∈ pyStrip l) : c ∈ l := by
  rw [pyStrip, List.mem_reverse] at h
  have h' := (List.dropWhile_sublist pySpace).mem h
  rw [List.mem_reverse] at h'
  exact (List.dropWhile_sublist pySpace).mem h'

theorem normalize_chars_stable (t : List Char) :
    ∀ c ∈ normalizeForComparison t, stableChar c := by
  intro c hc
  rw [normalizeForComparison] at hc
  split at hc
  · exact absurd hc (List.not_mem_nil c)
  · obtain ⟨d, hd, rfl⟩ := List.mem_map.mp hc
    obtain ⟨hd1, hpunct⟩ := List.mem_filter.mp hd
    obtain ⟨hd2, hcomb⟩ := List.mem_filter.mp hd1
    obtain ⟨e, _, hde⟩ := List.mem_flatMap.mp hd2
    have hcomb' : isCombining d = false := by simpa using hcomb
    have hpunct' : isPunct d = false := by simpa using hpunct
    cases hlk : decompTable.lookup e with
    | some ds =>
      rw [decompose, hlk, Option.getD_some] at hde
      exact stableChar_of_table_output (e, ds) (lookup_mem_of_eq_some _ _ _ hlk) d hde hcomb'
    | none =>
      rw [decompose, hlk, Option.getD_none, List.mem_singleton] at hde
      subst hde
      exact stableChar_of_nontable d hlk hcomb' hpunct'

theorem nfd_eq_self_of_stable :
    ∀ l : List Char, (∀ c ∈ l, decompose c = [c]) → nfd l = l := by
  intro l
  induction l with
  | nil => intro _; rfl
  | cons c rest ih =>
    intro h
    rw [nfd, List.flatMap_cons, h c (List.mem_cons_self _ _)]
    have ih' : rest.flatMap decompose = rest :=
      ih (fun x hx => h x (List.mem_cons_of_mem _ hx))
    rw [ih']
    rfl

/-- C4 counterexample: normalize_for_comparison is not idempotent. On the
input consisting of a comma, a space and the letter a, the first pass
removes the comma and leaves a leading space, which only the second pass
strips. -/
theorem c4_counterexample_not_idempotent :
    normalizeForComparison (normalizeForComparison ", a".toList) ≠
      normalizeForComparison ", a".toList := by decide

/-- C4 amended: a second application of normalize_for_comparison is
exactly a leading/trailing whitespace strip of the first result (removal
of punctuation next to edge whitespace can expose such whitespace);
consequently normalize_for_comparison is idempotent exactly on those
inputs whose normalized form carries no leading or trailing
whitespace. -/
theorem c4_amended_double_normalize_strips :
    (∀ t : List Char, normalizeForComparison (normalizeForComparison t) =
      pyStrip (normalizeForComparison t)) ∧
    (∀ t : List Char, pyStrip (normalizeForComparison t) = normalizeForComparison t →
      normalizeForComparison (normalizeForComparison t) = normalizeForComparison t) := by
  have main : ∀ t : List Char, normalizeForComparison (normalizeForComparison t) =
      pyStrip (normalizeForComparison t) := by
    intro t
    by_cases h0 : normalizeForComparison t = []
    · rw [h0]; rfl
    · have hsub : ∀ c ∈ pyStrip (normalizeForComparison t), stableChar c := fun c hc =>
        normalize_chars_stable t c (mem_of_mem_pyStrip c _ hc)
      rw [show normalizeForComparison (normalizeForComparison t) =
          pyLower (removePunct (removeCombining (nfd (pyStrip (normalizeForComparison t)))))
        from by rw [normalizeForComparison, if_neg h0]]
      rw [nfd_eq_self_of_stable _ (fun c hc => (hsub c hc).1)]
      rw [show removeCombining (pyStrip (normalizeForComparison t)) =
          pyStrip (normalizeForComparison t) from
        List.filter_eq_self.mpr (fun c hc => by
          simpa using (hsub c hc).2.1)]
      rw [show removePunct (pyStrip (normalizeForComparison t)) =
          pyStrip (normalizeForComparison t) from
        List.filter_eq_self.mpr (fun c hc => by
          simpa using (hsub c hc).2.2.1)]
      exact (List.map_congr_left (fun c hc => (hsub c hc).2.2.2)).trans
        (List.map_id _)
  exact ⟨main, fun t h => (main t).trans h⟩

/-! ### C9 -/

theorem dropDuplicatesAux_sublist {α β : Type} [DecidableEq β] (key : α → β) :
    ∀ (l : List α) (seen : List β), List.Sublist (dropDuplicatesAux key seen l) l := by
  intro l
  induction l with
  | nil => intro seen; exact List.Sublist.refl _
  | cons r rs ih =>
    intro seen
    simp only [dropDuplicatesAux]
    split
    · exact List.Sublist.cons r (ih seen)
    · exact List.Sublist.cons₂ r (ih _)

theorem dropDuplicatesAux_countP {α β : Type} [DecidableEq β] (key : α → β) (k : β) :
    ∀ (l : List α) (seen : List β),
      (dropDuplicatesAux key seen l).countP (fun r => decide (key r = k)) =
        if k ∈ seen then 0
        else if l.any (fun r => decide (key r = k)) then 1 else 0 := by
  intro l
  induction l with
  | nil => intro seen; simp [dropDuplicatesAux]
  | cons r rs ih =>
    intro seen
    simp only [dropDuplicatesAux]
    split
    · rename_i hseen
      rw [ih]
      by_cases hk : k ∈ seen
      · simp [hk]
      · have hne : ¬(key r = k) := fun h => hk (h ▸ hseen)
        simp [hk, hne]
    · rename_i hseen
      rw [List.countP_cons, ih]
      by_cases hk : k ∈ seen
      · have hne : ¬(key r = k) := fun h => hseen (h ▸ hk)
        simp [hk, hne]
      · by_cases hrk : key r = k
        · have hmem : k ∈ key r :: seen := by rw [hrk]; exact List.mem_cons_self _ _
          simp [hmem, hk, hrk]
        · have hmem : k ∉ key r :: seen := by
            simp only [List.mem_cons, not_or]
            exact ⟨fun h => hrk h.symm, hk⟩
          simp [hmem, hk, hrk]

theorem dropDuplicatesAux_find? {α β : Type} [DecidableEq β] (key : α → β) (k : β) :
    ∀ (l : List α) (seen : List β), k ∉ seen →
      (dropDuplicatesAux key seen l).find? (fun r => decide (key r = k)) =
        l.find? (fun r => decide (key r = k)) := by
  intro l
  induction l with
  | nil => intro seen _; rfl
  | cons r rs ih =>
    intro seen hk
    simp only [dropDuplicatesAux]
    split
    · rename_i hseen
      have hne : ¬(key r = k) := fun h => hk (h ▸ hseen)
      rw [List.find?_cons_of_neg _ (by simpa using hne)]
      exact ih seen hk
    · rename_i hseen
      by_cases hrk : key r = k
      · rw [List.find?_cons_of_pos _ (by simpa using hrk),
          List.find?_cons_of_pos _ (by simpa using hrk)]
      · rw [List.find?_cons_of_neg _ (by simpa using hrk),
          List.find?_cons_of_neg _ (by simpa using hrk)]
        refine ih _ ?_
        simp only [List.mem_cons, not_or]
        exact ⟨fun h => hrk h.symm, hk⟩

/-- C9: when two row collections are merged and share a row identical on
every column except the provenance metadata columns, the deduplicated
combined collection contains exactly one row with that content, namely
the first occurrence, and deduplication preserves the original relative
order (the result is a sublist of the input). -/
theorem c9_dedup_keeps_first_occurrence (l1 l2 : List Row) (r1 r2 : Row)
    (h1 : r1 ∈ l1) (_h2 : r2 ∈ l2) (_hk : rowKey r1 = rowKey r2) :
    (removeDuplicates (l1 ++ l2)).countP
        (fun r => decide (rowKey r = rowKey r1)) = 1 ∧
    (removeDuplicates (l1 ++ l2)).find? (fun r => decide (rowKey r = rowKey r1)) =
      (l1 ++ l2).find? (fun r => decide (rowKey r = rowKey r1)) ∧
    List.Sublist (removeDuplicates (l1 ++ l2)) (l1 ++ l2) := by
  refine ⟨?_, dropDuplicatesAux_find? rowKey (rowKey r1) (l1 ++ l2) []
      (List.not_mem_nil _),
    dropDuplicatesAux_sublist rowKey (l1 ++ l2) []⟩
  rw [removeDuplicates, dropDuplicatesAux_countP]
  rw [if_neg (List.not_mem_nil _), if_pos]
  exact List.any_eq_true.mpr ⟨r1, List.mem_append_left _ h1, by simp⟩

/-- C9 witness: two one-row collections sharing one row up to the
`_source_file` provenance column. -/
theorem c9_dedup_keeps_first_occurrence_witness :
    ([("a".toList, Cell.str "x".toList),
        ("_source_file".toList, Cell.str "f1".toList)] ∈
      ([[("a".toList, Cell.str "x".toList),
        ("_source_file".toList, Cell.str "f1".toList)]] : List Row)) ∧
    ([("a".toList, Cell.str "x".toList),
        ("_source_file".toList, Cell.str "f2".toList)] ∈
      ([[("a".toList, Cell.str "x".toList),
        ("_source_file".toList, Cell.str "f2".toList)]] : List Row)) ∧
    rowKey [("a".toList, Cell.str "x".toList),
        ("_source_file".toList, Cell.str "f1".toList)] =
      rowKey [("a".toList, Cell.str "x".toList),
        ("_source_file".toList, Cell.str "f2".toList)] ∧
    (removeDuplicates
        ([[("a".toList, Cell.str "x".toList),
            ("_source_file".toList, Cell.str "f1".toList)]] ++
          [[("a".toList, Cell.str "x".toList),
            ("_source_file".toList, Cell.str "f2".toList)]])).countP
      (fun r => decide (rowKey r =
        rowKey [("a".toList, Cell.str "x".toList),
          ("_source_file".toList, Cell.str "f1".toList)])) = 1 :=
  ⟨by decide, by decide, by decide,
    (c9_dedup_keeps_first_occurrence
      [[("a".toList, Cell.str "x".toList),
        ("_source_file".toList, Cell.str "f1".toList)]]
      [[("a".toList, Cell.str "x".toList),
        ("_source_file".toList, Cell.str "f2".toList)]]
      [("a".toList, Cell.str "x".toList),
        ("_source_file".toList, Cell.str "f1".toList)]
      [("a".toList, Cell.str "x".toList),
        ("_source_file".toList, Cell.str "f2".toList)]
      (by decide) (by decide) (by decide)).1⟩

/-! ### C8 -/

theorem lookupA_insertA_self {α : Type} :
    ∀ (l : List (ColName × α)) (k : ColName) (v : α),
      lookupA (insertA l k v) k = some v := by
  intro l
  induction l with
  | nil => intro k v; simp [insertA, lookupA]
  | cons hd tl ih =>
    intro k v
    obtain ⟨k', v'⟩ := hd
    simp only [insertA]
    split
    · simp [lookupA]
    · rename_i hne
      simp only [lookupA]
      rw [if_neg hne]
      exact ih k v

theorem lookupA_insertA_ne {α : Type} :
    ∀ (l : List (ColName × α)) (k k' : ColName) (v : α), k' ≠ k →
      lookupA (insertA l k v) k' = lookupA l k' := by
  intro l
  induction l with
  | nil =>
    intro k k' v h
    simp only [insertA, lookupA]
    rw [if_neg (fun hh => h hh.symm)]
  | cons hd tl ih =>
    intro k k' v h
    obtain ⟨k₀, v₀⟩ := hd
    simp only [insertA]
    split
    · rename_i heq
      subst heq
      simp only [lookupA]
      rw [if_neg (fun hh => h hh.symm), if_neg (fun hh => h hh.symm)]
    · simp only [lookupA]
      split
      · rfl
      · exact ih k k' v h

theorem lookupA_modifyA_self {α : Type} :
    ∀ (l : List (ColName × α)) (k : ColName) (f : α → α),
      lookupA (modifyA l k f) k = (lookupA l k).map f := by
  intro l
  induction l with
  | nil => intro k f; rfl
  | cons hd tl ih =>
    intro k f
    obtain ⟨k₀, v₀⟩ := hd
    simp only [modifyA]
    by_cases h : k₀ = k
    · subst h
      simp [lookupA]
    · rw [if_neg h]
      simp only [lookupA]
      rw [if_neg h, if_neg h]
      exact ih k f

theorem lookupA_modifyA_ne {α : Type} :
    ∀ (l : List (ColName × α)) (k k' : ColName) (f : α → α), k' ≠ k →
      lookupA (modifyA l k f) k' = lookupA l k' := by
  intro l
  induction l with
  | nil => intro _ _ _ _; rfl
  | cons hd tl ih =>
    intro k k' f h
    obtain ⟨k₀, v₀⟩ := hd
    simp only [modifyA]
    by_cases h0 : k₀ = k
    · subst h0
      simp only [lookupA]
      rw [if_neg (fun hh => (h hh.symm : False)), if_neg
        (fun hh => (h hh.symm : False))]
    · rw [if_neg h0]
      simp only [lookupA]
      split
      · rfl
      · exact ih k k' f h

theorem lookupA_mem {α : Type} :
    ∀ (l : List (ColName × α)) (k : ColName) (v : α),
      lookupA l k = some v → (k, v) ∈ l := by
  intro l
  induction l with
  | nil => intro k v h; simp [lookupA] at h
  | cons hd tl ih =>
    intro k v h
    obtain ⟨k₀, v₀⟩ := hd
    simp only [lookupA] at h
    split at h
    · rename_i heq
      subst heq
      obtain rfl := Option.some.inj h
      exact List.mem_cons_self _ _
    · exact List.mem_cons_of_mem _ (ih k v h)

theorem mem_insertA {α : Type} :
    ∀ (l : List (ColName × α)) (k : ColName) (v : α) (e : ColName × α),
      e ∈ insertA l k v → e ∈ l ∨ e = (k, v) := by
  intro l
  induction l with
  | nil => intro k v e h; simp only [insertA, List.mem_singleton] at h; exact Or.inr h
  | cons hd tl ih =>
    intro k v e h
    obtain ⟨k₀, v₀⟩ := hd
    simp only [insertA] at h
    split at h
    · rcases List.mem_cons.mp h with rfl | h
      · exact Or.inr rfl
      · exact Or.inl (List.mem_cons_of_mem _ h)
    · rcases List.mem_cons.mp h with rfl | h
      · exact Or.inl (List.mem_cons_self _ _)
      · rcases ih k v e h with h' | h'
        · exact Or.inl (List.mem_cons_of_mem _ h')
        · exact Or.inr h'

theorem mem_modifyA {α : Type} :
    ∀ (l : List (ColName × α)) (k : ColName) (f : α → α) (e : ColName × α),
      e ∈ modifyA l k f → e ∈ l ∨ ∃ v, (k, v) ∈ l ∧ e = (k, f v) := by
  intro l
  induction l with
  | nil => intro k f e h; exact absurd h (List.not_mem_nil e)
  | cons hd tl ih =>
    intro k f e h
    obtain ⟨k₀, v₀⟩ := hd
    simp only [modifyA] at h
    split at h
    · rename_i heq
      subst heq
      rcases List.mem_cons.mp h with rfl | h
      · exact Or.inr ⟨v₀, List.mem_cons_self _ _, rfl⟩
      · exact Or.inl (List.mem_cons_of_mem _ h)
    · rcases List.mem_cons.mp h with rfl | h
      · exact Or.inl (List.mem_cons_self _ _)
      · rcases ih k f e h with h' | ⟨v, hv, he⟩
        · exact Or.inl (List.mem_cons_of_mem _ h')
        · exact Or.inr ⟨v, List.mem_cons_of_mem _ hv, he⟩

theorem foldl_insertA_lookup_not_mem {α : Type} (f : ColName × RawPattern → α) :
    ∀ (ps : List (ColName × RawPattern)) (acc : List (ColName × α)) (pname : ColName),
      pname ∉ ps.map Prod.fst →
      lookupA (ps.foldl (fun a p => insertA a p.1 (f p)) acc) pname =
        lookupA acc pname := by
  intro ps
  induction ps with
  | nil => intro acc pname _; rfl
  | cons q rest ih =>
    intro acc pname h
    simp only [List.map_cons, List.mem_cons, not_or] at h
    simp only [List.foldl_cons]
    rw [ih _ _ h.2, lookupA_insertA_ne _ _ _ _ h.1]

theorem foldl_insertA_lookup {α : Type} (f : ColName × RawPattern → α) :
    ∀ (ps : List (ColName × RawPattern)) (acc : List (ColName × α))
      (pname : ColName) (praw : RawPattern),
      (ps.map Prod.fst).Nodup → (pname, praw) ∈ ps →
      lookupA (ps.foldl (fun a p => insertA a p.1 (f p)) acc) pname =
        some (f (pname, praw)) := by
  intro ps
  induction ps with
  | nil => intro acc pname praw _ hmem; simp at hmem
  | cons q rest ih =>
    intro acc pname praw hnd hmem
    simp only [List.map_cons, List.nodup_cons] at hnd
    simp only [List.foldl_cons]
    rcases List.mem_cons.mp hmem with rfl | hmem
    · rw [foldl_insertA_lookup_not_mem f rest _ _ hnd.1, lookupA_insertA_self]
    · exact ih _ pname praw hnd.2 hmem

theorem applyToLanguage_lookup_not_mem (processed : List (ColName × CompiledRule))
    (lang : ColName) (rows : List Row) :
    ∀ (ps : List (ColName × RawPattern)) (res : List (ColName × LangResults))
      (pname : ColName), pname ∉ ps.map Prod.fst →
      lookupA (applyToLanguage processed ps res lang rows) pname =
        lookupA res pname := by
  intro ps
  induction ps with
  | nil => intro res pname _; rfl
  | cons q rest ih =>
    intro res pname h
    simp only [List.map_cons, List.mem_cons, not_or] at h
    simp only [applyToLanguage, List.foldl_cons]
    rw [show (rest.foldl _ _ : List (ColName × LangResults)) =
      applyToLanguage processed rest _ lang rows from rfl]
    rw [ih _ _ h.2]
    split
    · rfl
    · exact lookupA_modifyA_ne _ _ _ _ h.1

theorem applyToLanguage_lookup (processed : List (ColName × CompiledRule))
    (lang : ColName) (rows : List Row) :
    ∀ (ps : List (ColName × RawPattern)) (res : List (ColName × LangResults))
      (pname : ColName) (inner₀ : LangResults),
      (ps.map Prod.fst).Nodup → pname ∈ ps.map Prod.fst →
      lookupA res pname = some inner₀ →
      lookupA (applyToLanguage processed ps res lang rows) pname =
        some (if (rows.filter
            (fun r => checkRowMatchesPattern processed r pname)).isEmpty
          then inner₀
          else insertA inner₀ lang
            (rows.filter (fun r => checkRowMatchesPattern processed r pname))) := by
  intro ps
  induction ps with
  | nil => intro res pname inner₀ _ hmem _; simp at hmem
  | cons q rest ih =>
    intro res pname inner₀ hnd hmem hres
    simp only [List.map_cons, List.nodup_cons] at hnd
    simp only [applyToLanguage, List.foldl_cons]
    rw [show (rest.foldl _ _ : List (ColName × LangResults)) =
      applyToLanguage processed rest _ lang rows from rfl]
    rcases List.mem_cons.mp hmem with rfl | hmem
    · rw [applyToLanguage_lookup_not_mem processed lang rows rest _ _ hnd.1]
      split
      · rw [hres]
      · rw [lookupA_modifyA_self, hres]
        rfl
    · have hq : q.1 ≠ pname := fun h => hnd.1 (h ▸ hmem)
      refine ih _ pname inner₀ hnd.2 hmem ?_
      split
      · exact hres
      · rw [lookupA_modifyA_ne _ _ _ _ (fun h => hq h.symm)]
        exact hres

theorem dataFold_lookup_not_mem (processed : List (ColName × CompiledRule))
    (patterns : List (ColName × RawPattern)) :
    ∀ (ds : List (ColName × List Row)) (res : List (ColName × LangResults))
      (pname lang : ColName) (inner₀ : LangResults),
      (patterns.map Prod.fst).Nodup → pname ∈ patterns.map Prod.fst →
      lookupA res pname = some inner₀ → lang ∉ ds.map Prod.fst →
      ∃ innerF : LangResults,
        lookupA (ds.foldl
          (fun r d => applyToLanguage processed patterns r d.1 d.2) res) pname =
            some innerF ∧
        lookupA innerF lang = lookupA inner₀ lang := by
  intro ds
  induction ds with
  | nil => intro res pname lang inner₀ _ _ hres _; exact ⟨inner₀, hres, rfl⟩
  | cons d rest ih =>
    intro res pname lang inner₀ hnd hpm hres h
    simp only [List.map_cons, List.mem_cons, not_or] at h
    simp only [List.foldl_cons]
    have hstep := applyToLanguage_lookup processed d.1 d.2 patterns res pname inner₀
      hnd hpm hres
    obtain ⟨innerF, hF, hFl⟩ := ih _ pname lang _ hnd hpm hstep h.2
    refine ⟨innerF, hF, hFl.trans ?_⟩
    split
    · rfl
    · exact lookupA_insertA_ne _ _ _ _ h.1

theorem dataFold_lookup_main (processed : List (ColName × CompiledRule))
    (patterns : List (ColName × RawPattern)) :
    ∀ (ds : List (ColName × List Row)) (res : List (ColName × LangResults))
      (pname lang : ColName) (rows : List Row) (inner₀ : LangResults),
      (patterns.map Prod.fst).Nodup → pname ∈ patterns.map Prod.fst →
      (ds.map Prod.fst).Nodup → (lang, rows) ∈ ds →
      lookupA res pname = some inner₀ → lookupA inner₀ lang = none →
      ∃ innerF : LangResults,
        lookupA (ds.foldl
          (fun r d => applyToLanguage processed patterns r d.1 d.2) res) pname =
            some innerF ∧
        lookupA innerF lang =
          (if (rows.filter
              (fun r => checkRowMatchesPattern processed r pname)).isEmpty
            then none
            else some (rows.filter
              (fun r => checkRowMatchesPattern processed r pname))) := by
  intro ds
  induction ds with
  | nil => intro _ _ _ _ _ _ _ _ hmem _ _; simp at hmem
  | cons d rest ih =>
    intro res pname lang rows inner₀ hnd hpm hdnd hdm hres hlang
    simp only [List.map_cons, List.nodup_cons] at hdnd
    simp only [List.foldl_cons]
    rcases List.mem_cons.mp hdm with heq | hdm
    · obtain rfl : d = (lang, rows) := heq.symm
      have hstep := applyToLanguage_lookup processed lang rows patterns res pname inner₀
        hnd hpm hres
      obtain ⟨innerF, hF, hFl⟩ :=
        dataFold_lookup_not_mem processed patterns rest _ pname lang _ hnd hpm hstep
          hdnd.1
      refine ⟨innerF, hF, hFl.trans ?_⟩
      split
      · exact hlang
      · exact lookupA_insertA_self _ _ _
    · have hdl : d.1 ≠ lang := fun h =>
        hdnd.1 (h ▸ List.mem_map.mpr ⟨(lang, rows), hdm, rfl⟩)
      have hstep := applyToLanguage_lookup processed d.1 d.2 patterns res pname inner₀
        hnd hpm hres
      refine ih _ pname lang rows _ hnd hpm hdnd.2 hdm hstep ?_
      split
      · exact hlang
      · rw [lookupA_insertA_ne _ _ _ _ (fun h => hdl h.symm)]
        exact hlang

theorem applyToLanguage_values_nonempty (processed : List (ColName × CompiledRule))
    (lang : ColName) (rows : List Row) :
    ∀ (ps : List (ColName × RawPattern)) (res : List (ColName × LangResults)),
      (∀ e ∈ res, ∀ x ∈ e.2, x.2 ≠ ([] : List Row)) →
      ∀ e ∈ applyToLanguage processed ps res lang rows, ∀ x ∈ e.2,
        x.2 ≠ ([] : List Row) := by
  intro ps
  induction ps with
  | nil => intro res hres; exact hres
  | cons q rest ih =>
    intro res hres
    simp only [applyToLanguage, List.foldl_cons]
    rw [show (rest.foldl _ _ : List (ColName × LangResults)) =
      applyToLanguage processed rest _ lang rows from rfl]
    refine ih _ ?_
    split
    · exact hres
    · rename_i hne
      intro e he x hx
      rcases mem_modifyA _ _ _ _ he with he' | ⟨v, hv, rfl⟩
      · exact hres e he' x hx
      · rcases mem_insertA _ _ _ _ hx with hx' | rfl
        · exact hres (q.1, v) hv x hx'
        · intro hnil
          apply hne
          rw [show (rows.filter
            (fun r => checkRowMatchesPattern processed r q.1)) = [] from hnil]
          rfl

theorem dataFold_values_nonempty (processed : List (ColName × CompiledRule))
    (patterns : List (ColName × RawPattern)) :
    ∀ (ds : List (ColName × List Row)) (res : List (ColName × LangResults)),
      (∀ e ∈ res, ∀ x ∈ e.2, x.2 ≠ ([] : List Row)) →
      ∀ e ∈ ds.foldl (fun r d => applyToLanguage processed patterns r d.1 d.2) res,
        ∀ x ∈ e.2, x.2 ≠ ([] : List Row) := by
  intro ds
  induction ds with
  | nil => intro res hres; exact hres
  | cons d rest ih =>
    intro res hres
    simp only [List.foldl_cons]
    exact ih _ (applyToLanguage_values_nonempty processed d.1 d.2 patterns res hres)

theorem init_values_nonempty :
    ∀ (ps : List (ColName × RawPattern)) (acc : List (ColName × LangResults)),
      (∀ e ∈ acc, ∀ x ∈ e.2, x.2 ≠ ([] : List Row)) →
      ∀ e ∈ ps.foldl (fun a p => insertA a p.1 ([] : LangResults)) acc,
        ∀ x ∈ e.2, x.2 ≠ ([] : List Row) := by
  intro ps
  induction ps with
  | nil => intro acc hacc; exact hacc
  | cons q rest ih =>
    intro acc hacc
    simp only [List.foldl_cons]
    refine ih _ ?_
    intro e he x hx
    rcases mem_insertA _ _ _ _ he with he' | rfl
    · exact hacc e he' x hx
    · exact absurd hx (List.not_mem_nil x)

/-- C8: in the result of apply_patterns, a (rule, language) pair with
zero matching rows is absent from the rule's inner mapping, never stored
as an empty collection: under distinct language keys and distinct rule
names, the language key is present in the rule's inner mapping exactly
when at least one row of that language matched, in which case it maps to
the non-empty list of matching rows, and every stored row list is
non-empty. -/
theorem c8_zero_match_pairs_absent (data : List (ColName × List Row))
    (patterns : List (ColName × RawPattern))
    (hd : (data.map Prod.fst).Nodup) (hp : (patterns.map Prod.fst).Nodup)
    (pname : ColName) (praw : RawPattern) (hpm : (pname, praw) ∈ patterns)
    (lang : ColName) (rows : List Row) (hdm : (lang, rows) ∈ data) :
    ∃ inner : LangResults,
      lookupA (applyPatterns data patterns) pname = some inner ∧
      (lookupA inner lang =
        if (rows.filter (fun r => rowMatchesPattern r (processPattern praw))).isEmpty
        then none
        else some (rows.filter
          (fun r => rowMatchesPattern r (processPattern praw)))) ∧
      (∀ e ∈ inner, e.2 ≠ ([] : List Row)) := by
  have hproc : lookupA (processPatterns patterns) pname = some (processPattern praw) :=
    foldl_insertA_lookup _ patterns [] pname praw hp hpm
  have hcheck : ∀ r : Row,
      checkRowMatchesPattern (processPatterns patterns) r pname =
        rowMatchesPattern r (processPattern praw) := by
    intro r
    rw [checkRowMatchesPattern, hproc]
  have hinit : lookupA
      (patterns.foldl (fun a p => insertA a p.1 ([] : LangResults)) []) pname =
        some ([] : LangResults) :=
    foldl_insertA_lookup _ patterns [] pname praw hp hpm
  obtain ⟨innerF, hF, hFl⟩ := dataFold_lookup_main (processPatterns patterns) patterns
    data _ pname lang rows ([] : LangResults) hp
    (List.mem_map.mpr ⟨(pname, praw), hpm, rfl⟩) hd hdm hinit rfl
  refine ⟨innerF, hF, ?_, ?_⟩
  · rw [hFl]
    simp only [hcheck]
  · intro e he
    have hne := dataFold_values_nonempty (processPatterns patterns) patterns data _
      (init_values_nonempty patterns [] (by intro e he; simp at he))
      (pname, innerF) (lookupA_mem _ pname innerF hF)
    intro hnil
    exact hne e he hnil

/-- C8 witness: one language with one row and one rule; a second rule
name is absent when nothing matches. -/
theorem c8_zero_match_pairs_absent_witness :
    (([("es".toList, [[("foro".toList, Cell.str "cafe".toList)]])].map
        Prod.fst).Nodup) ∧
    (([("r1".toList, [("foro".toList, [RawVal.str "cafe".toList])])].map
        Prod.fst).Nodup) ∧
    (("r1".toList, [("foro".toList, [RawVal.str "cafe".toList])]) ∈
      [("r1".toList, [("foro".toList, [RawVal.str "cafe".toList])])]) ∧
    (("es".toList, [[("foro".toList, Cell.str "cafe".toList)]]) ∈
      [("es".toList, [[("foro".toList, Cell.str "cafe".toList)]])]) ∧
    (∃ inner : LangResults,
      lookupA (applyPatterns
        [("es".toList, [[("foro".toList, Cell.str "cafe".toList)]])]
        [("r1".toList, [("foro".toList, [RawVal.str "cafe".toList])])])
          "r1".toList = some inner ∧
      (lookupA inner "es".toList =
        if ([[("foro".toList, Cell.str "cafe".toList)]].filter
            (fun r => rowMatchesPattern r (processPattern
              [("foro".toList, [RawVal.str "cafe".toList])]))).isEmpty
        then none
        else some ([[("foro".toList, Cell.str "cafe".toList)]].filter
          (fun r => rowMatchesPattern r (processPattern
            [("foro".toList, [RawVal.str "cafe".toList])])))) ∧
      (∀ e ∈ inner, e.2 ≠ ([] : List Row))) :=
  ⟨by decide, by decide, by decide, by decide,
    c8_zero_match_pairs_absent
      [("es".toList, [[("foro".toList, Cell.str "cafe".toList)]])]
      [("r1".toList, [("foro".toList, [RawVal.str "cafe".toList])])]
      (by decide) (by decide)
      "r1".toList [("foro".toList, [RawVal.str "cafe".toList])] (by decide)
      "es".toList [[("foro".toList, Cell.str "cafe".toList)]] (by decide)⟩

/-- C10 witness: the pattern value `!` cleans to the empty string and
accepts an arbitrary cell. -/
theorem c10_empty_pattern_value_accepts_all_witness :
    ("!".toList ∈ ["!".toList]) ∧
    normalizeForComparison "!".toList = [] ∧
    (Cell.str "hola".toList ≠ Cell.missing) ∧
    checkStringCondition (Cell.str "hola".toList) ["!".toList] = true :=
  ⟨by decide, by decide, by decide,
    c10_empty_pattern_value_accepts_all (Cell.str "hola".toList) ["!".toList]
      "!".toList (by decide) (by decide) (by decide)⟩

end Womter
